import Mathlib

/-!
Shallow embedding of `nameko_pymemcache.py` (the `Memcached` dependency
provider for nameko built on pymemcache's `HashClient`), together with
theorems settling the specification claims about it.

The embedding mirrors the module faithfully:
  * the address-parsing loop of `Memcached._get_client` (lines 44-54),
  * the default client option dictionary and its merge with caller
    options (lines 56-70),
  * `Memcached.setup`, `Memcached.get_dependency`,
    `Memcached.worker_teardown` (lines 29-42),
  * the batched read `get_many` of the hash client, which is not present
    in the module source (the tests import a `NamekoHashClient` from the
    module that the module file does not define); that one operation is
    modelled from the specification, as flagged on its doc string.
-/

namespace NamekoPymemcache

/-! ### Python `int()` on strings

`int(port)` in the source accepts an (ASCII) decimal literal with
optional surrounding whitespace, an optional single leading sign, and
single underscores between digits; anything else raises `ValueError`,
modelled here as `none`. -/

/-- Accumulate the value of a nonempty run of decimal digits in which a
single underscore may stand between two digits (Python numeric-literal
grouping). -/
def pyDigitsAux : Nat → List Char → Option Nat
  | acc, [] => some acc
  | _, ['_'] => none
  | acc, '_' :: c :: cs =>
      if c.isDigit then pyDigitsAux (acc * 10 + (c.toNat - 48)) cs else none
  | acc, c :: cs =>
      if c.isDigit then pyDigitsAux (acc * 10 + (c.toNat - 48)) cs else none

/-- Parse a nonempty digit string (underscore grouping allowed) to its
decimal value. -/
def pyDigits : List Char → Option Nat
  | [] => none
  | c :: cs => if c.isDigit then pyDigitsAux (c.toNat - 48) cs else none

/-- Strip leading and trailing whitespace, as Python `int()` does before
reading the literal. -/
def stripWs (cs : List Char) : List Char :=
  ((cs.dropWhile Char.isWhitespace).reverse.dropWhile Char.isWhitespace).reverse

/-- Model of Python `int(s)` for base 10: `none` models `ValueError`. -/
def pyInt (s : String) : Option Int :=
  match stripWs s.toList with
  | '-' :: rest => (pyDigits rest).map (fun n => -(n : Int))
  | '+' :: rest => (pyDigits rest).map (fun n => (n : Int))
  | rest => (pyDigits rest).map (fun n => (n : Int))

/-! ### `uri.rsplit(':', 1)` -/

/-- Split a character list at the last occurrence of `':'`, returning
the text before and after it; `none` when no `':'` occurs.  This is
`uri.rsplit(":", 1)` restricted to the case the source guards with
`":" in uri`. -/
def splitAtLastColon : List Char → Option (List Char × List Char)
  | [] => none
  | c :: rest =>
      match splitAtLastColon rest with
      | some (pre, post) => some (c :: pre, post)
      | none => if c = ':' then some ([], rest) else none

/-! ### The address-parsing step of `Memcached._get_client` -/

/-- One iteration of the parsing loop in `_get_client`: if `':' in uri`
then `host, port = uri.rsplit(':', 1); port = int(port)`, else
`host = uri; port = 11211`.  `none` models the `ValueError` escaping
from `int`. -/
def parseUri (uri : String) : Option (String × Int) :=
  match splitAtLastColon uri.toList with
  | some (host, port) =>
      match pyInt (String.mk port) with
      | some n => some (String.mk host, n)
      | none => none
  | none => some (uri, 11211)

/-- The whole parsing loop: the `servers` list built by `_get_client`,
in input order, failing as soon as one `int(port)` raises. -/
def parseServers : List String → Option (List (String × Int))
  | [] => some []
  | uri :: rest =>
      match parseUri uri, parseServers rest with
      | some p, some ps => some (p :: ps)
      | _, _ => none

/-! ### Association lists standing for Python dicts -/

/-- First-match lookup in an association list (Python `d[k]` / `d.get(k)`
on a dict, whose keys are unique). -/
def alookup [DecidableEq α] (k : α) : List (α × β) → Option β
  | [] => none
  | (k0, v) :: rest => if k0 = k then some v else alookup k rest

/-- Python `d[k] = v`: overwrite in place when the key is present
(dicts keep the original insertion position), append otherwise. -/
def assocSet [DecidableEq α] (k : α) (v : β) : List (α × β) → List (α × β)
  | [] => [(k, v)]
  | (k0, v0) :: rest =>
      if k0 = k then (k, v) :: rest else (k0, v0) :: assocSet k v rest

/-- Python `d.update(other)`: set every binding of `other` in `d`, in
order. -/
def dictUpdate [DecidableEq α] (d : List (α × β)) : List (α × β) → List (α × β)
  | [] => d
  | (k, v) :: rest => dictUpdate (assocSet k v d) rest

/-- Remove the binding for a key, Python `d.pop(k, None)` when the key is
present. -/
def assocErase [DecidableEq α] (k : α) : List (α × β) → List (α × β)
  | [] => []
  | (k0, v0) :: rest =>
      if k0 = k then rest else (k0, v0) :: assocErase k rest

/-! ### The client option dictionary of `_get_client` -/

/-- A client option value: booleans, integers, the two fractional
timeout constants, and the serde callables (kept symbolic by name). -/
inductive OptVal where
  | bool (b : Bool)
  | int (n : Int)
  | ratio (num den : Nat)
  | callable (name : String)
deriving DecidableEq, Repr

/-- The `client_options` literal of `_get_client` (lines 57-67), before
caller options are merged in. -/
def defaultOptions : List (String × OptVal) :=
  [("serializer", .callable "python_memcache_serializer"),
   ("deserializer", .callable "python_memcache_deserializer"),
   ("connect_timeout", .ratio 5 100),
   ("timeout", .ratio 5 100),
   ("no_delay", .bool true),
   ("ignore_exc", .bool true),
   ("retry_attempts", .int 1),
   ("dead_timeout", .int 5),
   ("use_pooling", .bool true)]

/-! ### The provider -/

/-- A constructed `HashClient`: the parsed server list and keyword
options it was constructed with, plus an allocation identity `id`
distinguishing the object created by each constructor call. -/
structure HashClient where
  servers : List (String × Int)
  options : List (String × OptVal)
  id : Nat
deriving DecidableEq, Repr

/-- Python truthiness of an optional string (`None` and `""` are
falsy). -/
def pyTruthyStr : Option String → Bool
  | none => false
  | some s => s ≠ ""

/-- `Memcached._get_client` (lines 44-79): parse `self.uris` to
`servers`, merge caller options over the defaults, evaluate the dead
`if self.user and self.password: pass` conditional, and construct the
hash client; `fresh` is the allocation identity of the new object. -/
def getClient (uris : List String) (options : List (String × OptVal))
    (user password : Option String) (fresh : Nat) : Option HashClient :=
  match parseServers uris with
  | none => none
  | some servers =>
      let clientOptions := dictUpdate defaultOptions options
      let _cond := pyTruthyStr user && pyTruthyStr password
      some { servers := servers, options := clientOptions, id := fresh }

/-- A configuration value in `container.config`. -/
inductive ConfigVal where
  | strList (l : List String)
  | str (s : String)
deriving DecidableEq, Repr

/-- `container.config`: a dict from setting names to values. -/
def Config := List (String × ConfigVal)

/-- Read an optional string-valued setting, Python
`config.get(key, None)` on a field holding a string. -/
def configGetStr (cfg : Config) (k : String) : Option String :=
  match alookup k cfg with
  | some (.str s) => some s
  | _ => none

/-- The provider state after `setup`: the three configuration reads,
the constructor options, the worker-context→client tracking table
(`self.clients`, worker contexts as identities), the allocation counter
for client objects, and the ids of clients whose teardown
(`disconnect_all`) has been triggered. -/
structure ProviderState where
  uris : List String
  user : Option String
  password : Option String
  options : List (String × OptVal)
  clients : List (Nat × HashClient)
  nextId : Nat
  disconnected : List Nat
deriving DecidableEq, Repr

/-- `Memcached.setup` (lines 29-32): `self.uris = config['MEMCACHED_URIS']`
(a `KeyError`, modelled as `none`, when absent), and
`config.get('MEMCACHED_USER'/'MEMCACHED_PASSWORD', None)`. -/
def Memcached.setup (cfg : Config) (options : List (String × OptVal)) :
    Option ProviderState :=
  match alookup "MEMCACHED_URIS" cfg with
  | some (.strList uris) =>
      some { uris := uris,
             user := configGetStr cfg "MEMCACHED_USER",
             password := configGetStr cfg "MEMCACHED_PASSWORD",
             options := options,
             clients := [], nextId := 0, disconnected := [] }
  | _ => none

/-- `Memcached.get_dependency` (lines 34-37): build a client with
`_get_client`, record it in `self.clients[worker_ctx]`, return it. -/
def Memcached.get_dependency (st : ProviderState) (ctx : Nat) :
    Option (ProviderState × HashClient) :=
  match getClient st.uris st.options st.user st.password st.nextId with
  | none => none
  | some c =>
      some ({ st with clients := assocSet ctx c st.clients,
                      nextId := st.nextId + 1 }, c)

/-- `Memcached.worker_teardown` (lines 39-42):
`client = self.clients.pop(worker_ctx, None); if client: client.quit()`.
A hash-client object is always truthy, so the conditional tests presence.
Modelled from the spec: the `quit` teardown of the client class the
tests import as `NamekoHashClient` is absent from the module source;
per the spec, release "triggers the client's teardown path
(disconnect_all)", recorded here by appending the client's id to
`disconnected`. -/
def Memcached.worker_teardown (st : ProviderState) (ctx : Nat) :
    ProviderState :=
  match alookup ctx st.clients with
  | none => st
  | some c =>
      { st with clients := assocErase ctx st.clients,
                disconnected := st.disconnected ++ [c.id] }

/-! ### The batched read of the hash client -/

/-- A value stored in the cache, as the serde layer round-trips it. -/
inductive PyVal where
  | int (n : Int)
  | bool (b : Bool)
  | str (s : String)
  | pynone
deriving DecidableEq, Repr

/-- Python truthiness of a stored value. -/
def pyTruthy : PyVal → Bool
  | .int n => n ≠ 0
  | .bool b => b
  | .str s => s ≠ ""
  | .pynone => false

/-- Modelled from the spec: the contribution of one requested key to
the `get_many` result — its stored binding when present and truthy,
nothing when the key is absent or its stored value is falsy. -/
def getManyEntry (store : List (String × PyVal)) (k : String) :
    Option (String × PyVal) :=
  match alookup k store with
  | some v => if pyTruthy v then some (k, v) else none
  | none => none

/-- Modelled from the spec: `get_many` of the hash client (the
`NamekoHashClient` the tests import is absent from the module source).
Per §4.4, any key whose stored value is falsy-but-present, or which is
absent, is omitted from the result mapping; present truthy keys map to
their stored value. `store` is the cache contents as an association
list. -/
def getMany (keys : List String) (store : List (String × PyVal)) :
    List (String × PyVal) :=
  keys.filterMap (getManyEntry store)

/-! ### Association-list lemmas -/

theorem alookup_eq_none_of_not_mem {α β : Type} [DecidableEq α] {k : α}
    {d : List (α × β)} (h : k ∉ d.map Prod.fst) : alookup k d = none := by
  induction d with
  | nil => rfl
  | cons hd tl ih =>
      obtain ⟨k0, v0⟩ := hd
      simp only [List.map_cons, List.mem_cons] at h
      push_neg at h
      simp [alookup, Ne.symm h.1, ih h.2]

theorem alookup_assocSet_self {α β : Type} [DecidableEq α] (k : α) (v : β)
    (d : List (α × β)) : alookup k (assocSet k v d) = some v := by
  induction d with
  | nil => simp [assocSet, alookup]
  | cons hd tl ih =>
      obtain ⟨k0, v0⟩ := hd
      by_cases h0 : k0 = k
      · simp [assocSet, h0, alookup]
      · simp [assocSet, h0, alookup, ih]

theorem alookup_assocSet_ne {α β : Type} [DecidableEq α] {k k' : α}
    (h : k' ≠ k) (v : β) (d : List (α × β)) :
    alookup k' (assocSet k v d) = alookup k' d := by
  induction d with
  | nil => simp [assocSet, alookup, Ne.symm h]
  | cons hd tl ih =>
      obtain ⟨k0, v0⟩ := hd
      by_cases h0 : k0 = k
      · subst h0
        simp [assocSet, alookup, Ne.symm h]
      · simp only [assocSet, if_neg h0, alookup]
        split
        · rfl
        · exact ih

theorem alookup_assocErase_self {α β : Type} [DecidableEq α] {k : α}
    {d : List (α × β)} (hnd : (d.map Prod.fst).Nodup) :
    alookup k (assocErase k d) = none := by
  induction d with
  | nil => rfl
  | cons hd tl ih =>
      obtain ⟨k0, v0⟩ := hd
      simp only [List.map_cons, List.nodup_cons] at hnd
      by_cases h0 : k0 = k
      · subst h0
        simp [assocErase, alookup_eq_none_of_not_mem hnd.1]
      · simp [assocErase, h0, alookup, ih hnd.2]

theorem alookup_assocErase_ne {α β : Type} [DecidableEq α] {k k' : α}
    (h : k' ≠ k) (d : List (α × β)) :
    alookup k' (assocErase k d) = alookup k' d := by
  induction d with
  | nil => rfl
  | cons hd tl ih =>
      obtain ⟨k0, v0⟩ := hd
      by_cases h0 : k0 = k
      · subst h0
        simp [assocErase, alookup, Ne.symm h]
      · simp only [assocErase, if_neg h0, alookup]
        split
        · rfl
        · exact ih

theorem alookup_dictUpdate {α β : Type} [DecidableEq α]
    (d u : List (α × β)) (hu : (u.map Prod.fst).Nodup) (k : α) :
    alookup k (dictUpdate d u) = (alookup k u).or (alookup k d) := by
  induction u generalizing d with
  | nil => simp [dictUpdate, alookup, Option.or]
  | cons hd rest ih =>
      obtain ⟨k0, v0⟩ := hd
      simp only [List.map_cons, List.nodup_cons] at hu
      rw [dictUpdate, ih (assocSet k0 v0 d) hu.2]
      by_cases h0 : k0 = k
      · subst h0
        rw [alookup_eq_none_of_not_mem hu.1, alookup_assocSet_self]
        simp [alookup, Option.or]
      · rw [alookup_assocSet_ne (Ne.symm h0)]
        simp [alookup, h0]

/-! ### Characterization of the last-colon split -/

theorem splitAtLastColon_none {s : List Char}
    (h : splitAtLastColon s = none) : ':' ∉ s := by
  induction s with
  | nil => simp
  | cons c rest ih =>
      cases hsp : splitAtLastColon rest with
      | some p =>
          obtain ⟨pre, post⟩ := p
          simp [splitAtLastColon, hsp] at h
      | none =>
          simp only [splitAtLastColon, hsp] at h
          by_cases hc : c = ':'
          · rw [if_pos hc] at h
            cases h
          · simp [List.mem_cons, ih hsp]
            exact fun hx => hc hx.symm

theorem splitAtLastColon_some {s pre post : List Char}
    (h : splitAtLastColon s = some (pre, post)) :
    s = pre ++ ':' :: post ∧ ':' ∉ post := by
  induction s generalizing pre post with
  | nil => simp [splitAtLastColon] at h
  | cons c rest ih =>
      cases hsp : splitAtLastColon rest with
      | some p =>
          obtain ⟨p1, p2⟩ := p
          simp only [splitAtLastColon, hsp, Option.some.injEq, Prod.mk.injEq] at h
          obtain ⟨h1, h2⟩ := h
          obtain ⟨hr, hnp⟩ := ih (hsp.trans rfl)
          subst h2
          constructor
          · rw [← h1, hr]
            simp
          · exact hnp
      | none =>
          simp only [splitAtLastColon, hsp] at h
          by_cases hc : c = ':'
          · rw [if_pos hc] at h
            obtain ⟨h1, h2⟩ := Prod.mk.injEq .. ▸ (Option.some.injEq .. ▸ h)
            subst hc
            constructor
            · rw [← h1, ← h2]
              simp
            · rw [← h2]
              exact splitAtLastColon_none hsp
          · rw [if_neg hc] at h
            cases h

/-! ### Claim theorems -/

/-- Claim C1: the address-parsing step of `_get_client` turns each
address string into one `(host, port)` pair in input order; a string
containing `':'` maps to the text before the last `':'` paired with the
integer value of the text after it, a string without `':'` maps to
itself paired with 11211, and the empty input list yields the empty
list.  (The split really is at the last `':'`: the suffix handed to
`int` contains no further `':'`.) -/
theorem parseServers_spec :
    parseServers [] = some []
    ∧ (∀ (uri : String) (pre post : List Char) (n : Int),
        splitAtLastColon uri.toList = some (pre, post) →
        pyInt (String.mk post) = some n →
        parseUri uri = some (String.mk pre, n))
    ∧ (∀ uri : String, splitAtLastColon uri.toList = none →
        parseUri uri = some (uri, 11211))
    ∧ (∀ s pre post : List Char, splitAtLastColon s = some (pre, post) →
        s = pre ++ ':' :: post ∧ ':' ∉ post)
    ∧ (∀ s : List Char, splitAtLastColon s = none → ':' ∉ s)
    ∧ (∀ (uris : List String) (ps : List (String × Int)),
        parseServers uris = some ps →
        ps.length = uris.length
        ∧ ∀ i (hu : i < uris.length) (hp : i < ps.length),
            parseUri (uris.get ⟨i, hu⟩) = some (ps.get ⟨i, hp⟩)) := by
  refine ⟨rfl, ?_, ?_, ?_, ?_, ?_⟩
  · intro uri pre post n h1 h2
    simp only [parseUri, h1, h2]
  · intro uri h
    rw [parseUri, h]
  · intro s pre post h
    exact splitAtLastColon_some h
  · intro s h
    exact splitAtLastColon_none h
  · intro uris
    induction uris with
    | nil =>
        intro ps hps
        cases hps
        exact ⟨rfl, fun i hu => absurd hu (by simp)⟩
    | cons u rest ih =>
        intro ps hps
        cases hu : parseUri u with
        | none => rw [parseServers, hu] at hps; cases hps
        | some p =>
            cases hrest : parseServers rest with
            | none => rw [parseServers, hu, hrest] at hps; cases hps
            | some qs =>
                rw [parseServers, hu, hrest] at hps
                cases hps
                obtain ⟨hlen, helem⟩ := ih qs hrest
                refine ⟨by simp [hlen], ?_⟩
                intro i hiu hip
                cases i with
                | zero => simpa using hu
                | succ j =>
                    simp only [List.get_cons_succ]
                    exact helem j (Nat.lt_of_succ_lt_succ hiu)
                      (Nat.lt_of_succ_lt_succ hip)

/-- Witness for C1 at concrete inputs: a string with a separator and a
string without one. -/
theorem parseServers_spec_witness :
    parseUri "h:8" = some (String.mk ['h'], 8)
    ∧ parseUri "localhost" = some ("localhost", 11211) :=
  ⟨parseServers_spec.2.1 "h:8" ['h'] ['8'] 8 rfl rfl,
   parseServers_spec.2.2.1 "localhost" rfl⟩

/-- Counterexample to claim C4: parsing the empty string does not fail;
`""` contains no `':'`, so the loop takes the default branch and emits
the pair `("", 11211)`. -/
theorem parseUri_empty_counterexample :
    parseUri "" = some ("", 11211) := rfl

/-- Claim C4 as amended: parsing the empty address string succeeds
rather than failing, yielding the empty host and the default port
11211, both as a single address and inside an address list. -/
theorem parseUri_empty_amended :
    parseServers [""] = some [("", 11211)]
    ∧ parseUri "" = some ("", 11211) :=
  ⟨rfl, rfl⟩

/-- Counterexample to claim C5: `"h:-1"` and `"h:0"` are accepted with
ports `-1` and `0`, neither of which is positive (both are at most
zero), and `"-1"` does not read as a non-negative integer yet parsing
does not fail. -/
theorem parseUri_port_counterexample :
    parseUri "h:-1" = some ("h", -1) ∧ (-1 : Int) ≤ 0
    ∧ parseUri "h:0" = some ("h", 0) ∧ (0 : Int) ≤ 0 := by
  refine ⟨by decide, by decide, by decide, by decide⟩

/-- Claim C5 as amended: an accepted address string carries either the
default port 11211 (no separator) or exactly the integer value of its
port substring, which may be zero or negative; when the port substring
has no integer value at all (Python `int` syntax), parsing fails rather
than silently defaulting. -/
theorem parsePort_amended :
    (∀ (uri : String) (pre post : List Char),
        splitAtLastColon uri.toList = some (pre, post) →
        pyInt (String.mk post) = none → parseUri uri = none)
    ∧ (∀ (uri host : String) (port : Int),
        parseUri uri = some (host, port) →
        (splitAtLastColon uri.toList = none ∧ port = 11211)
        ∨ (∃ pre post, splitAtLastColon uri.toList = some (pre, post)
            ∧ pyInt (String.mk post) = some port)) := by
  constructor
  · intro uri pre post h1 h2
    simp only [parseUri, h1, h2]
  · intro uri host port h
    cases hsp : splitAtLastColon uri.toList with
    | none =>
        simp only [parseUri, hsp, Option.some.injEq, Prod.mk.injEq] at h
        exact Or.inl ⟨rfl, h.2.symm⟩
    | some p =>
        obtain ⟨pre, post⟩ := p
        simp only [parseUri, hsp] at h
        cases hint : pyInt (String.mk post) with
        | none => rw [hint] at h; cases h
        | some n =>
            rw [hint] at h
            cases h
            exact Or.inr ⟨pre, post, rfl, hint⟩

/-- Witness for the amended C5: a non-integer port substring makes the
whole parse fail. -/
theorem parsePort_amended_witness : parseUri "h:x" = none :=
  parsePort_amended.1 "h:x" ['h'] ['x'] rfl rfl

/-- Claim C2: with no client associated to the worker context, release
is a no-op returning the state unchanged; with a client associated,
release removes the association and triggers that client's teardown;
and a second release of the same worker context is the no-op case, so
release is idempotent.  (`hnd`: a Python dict has no duplicate keys.) -/
theorem worker_teardown_release_spec (st : ProviderState) (ctx : Nat)
    (hnd : (st.clients.map Prod.fst).Nodup) :
    (alookup ctx st.clients = none → Memcached.worker_teardown st ctx = st)
    ∧ (∀ c, alookup ctx st.clients = some c →
        alookup ctx (Memcached.worker_teardown st ctx).clients = none
        ∧ (Memcached.worker_teardown st ctx).disconnected
            = st.disconnected ++ [c.id])
    ∧ Memcached.worker_teardown (Memcached.worker_teardown st ctx) ctx
        = Memcached.worker_teardown st ctx := by
  refine ⟨?_, ?_, ?_⟩
  · intro h
    simp only [Memcached.worker_teardown, h]
  · intro c hc
    constructor
    · simp only [Memcached.worker_teardown, hc]
      exact alookup_assocErase_self hnd
    · simp only [Memcached.worker_teardown, hc]
  · cases hc : alookup ctx st.clients with
    | none => simp only [Memcached.worker_teardown, hc]
    | some c =>
        have h1 : Memcached.worker_teardown st ctx
            = { st with clients := assocErase ctx st.clients,
                        disconnected := st.disconnected ++ [c.id] } := by
          simp only [Memcached.worker_teardown, hc]
        rw [h1]
        simp only [Memcached.worker_teardown,
          alookup_assocErase_self hnd (k := ctx)]

/-- Witness for C2 at concrete states: release with nothing associated
leaves the state untouched; release of an associated client empties the
table and records that client's teardown. -/
theorem worker_teardown_release_witness :
    Memcached.worker_teardown (ProviderState.mk ["h"] none none [] [] 0 []) 3
      = ProviderState.mk ["h"] none none [] [] 0 []
    ∧ alookup 3 (Memcached.worker_teardown
        (ProviderState.mk ["h"] none none []
          [(3, HashClient.mk [("h", 11211)] defaultOptions 0)] 1 []) 3).clients
      = none :=
  ⟨(worker_teardown_release_spec
      (ProviderState.mk ["h"] none none [] [] 0 []) 3 (by simp)).1 rfl,
   ((worker_teardown_release_spec
      (ProviderState.mk ["h"] none none []
        [(3, HashClient.mk [("h", 11211)] defaultOptions 0)] 1 []) 3
      (by simp)).2.1
      (HashClient.mk [("h", 11211)] defaultOptions 0) rfl).1⟩

/-- Claim C3: the option set handed to the constructed hash client is
the fixed default dictionary updated with the caller's options: on a
key the caller supplied, the caller's value wins, and on every other
key the default value (when any) survives.  (`hnd`: the caller's
options arrive as a Python dict, whose keys are unique.) -/
theorem clientOptions_merge_spec (opts : List (String × OptVal))
    (hnd : (opts.map Prod.fst).Nodup) :
    (∀ uris user password fresh c,
        getClient uris opts user password fresh = some c →
        c.options = dictUpdate defaultOptions opts)
    ∧ (∀ k v, alookup k opts = some v →
        alookup k (dictUpdate defaultOptions opts) = some v)
    ∧ (∀ k, alookup k opts = none →
        alookup k (dictUpdate defaultOptions opts)
          = alookup k defaultOptions) := by
  refine ⟨?_, ?_, ?_⟩
  · intro uris user password fresh c h
    cases hps : parseServers uris with
    | none => rw [getClient, hps] at h; cases h
    | some servers =>
        rw [getClient, hps] at h
        cases h
        rfl
  · intro k v h
    rw [alookup_dictUpdate _ _ hnd, h]
    rfl
  · intro k h
    rw [alookup_dictUpdate _ _ hnd, h]
    rfl

/-- Witness for C3 at a concrete caller dictionary: the caller's
`timeout` override wins, and the untouched `no_delay` default
survives. -/
theorem clientOptions_merge_witness :
    alookup "timeout" (dictUpdate defaultOptions [("timeout", OptVal.int 3)])
      = some (OptVal.int 3)
    ∧ alookup "no_delay" (dictUpdate defaultOptions [("timeout", OptVal.int 3)])
      = some (OptVal.bool true) := by
  constructor
  · exact (clientOptions_merge_spec [("timeout", OptVal.int 3)]
      (by simp)).2.1 "timeout" (OptVal.int 3) rfl
  · rw [(clientOptions_merge_spec [("timeout", OptVal.int 3)]
      (by simp)).2.2 "no_delay" rfl]
    rfl

/-- Claim C6: the hash-client construction of `_get_client` is
identical whether or not `MEMCACHED_USER` and `MEMCACHED_PASSWORD` are
set — runs differing only in those two provider fields build the very
same client (the auth fields are read but never influence anything). -/
theorem getClient_auth_noninterference :
    ∀ (uris : List String) (opts : List (String × OptVal)) (fresh : Nat)
      (user1 password1 user2 password2 : Option String),
      getClient uris opts user1 password1 fresh
        = getClient uris opts user2 password2 fresh := by
  intro uris opts fresh u1 p1 u2 p2
  rfl

/-- The client object `_get_client` returns carries the allocation
identity it was constructed with. -/
theorem getClient_fresh_id {uris : List String}
    {opts : List (String × OptVal)} {user password : Option String}
    {fresh : Nat} {c : HashClient}
    (h : getClient uris opts user password fresh = some c) : c.id = fresh := by
  cases hps : parseServers uris with
  | none => rw [getClient, hps] at h; cases h
  | some servers =>
      rw [getClient, hps] at h
      cases h
      rfl

/-- One key contributes to the `get_many` result exactly when it is
bound in the store to a truthy value, and then contributes its own
binding. -/
theorem getManyEntry_eq_some {store : List (String × PyVal)}
    {a : String} {p : String × PyVal} :
    getManyEntry store a = some p
      ↔ ∃ v, alookup a store = some v ∧ pyTruthy v = true ∧ p = (a, v) := by
  cases hv : alookup a store with
  | none => simp [getManyEntry, hv]
  | some v =>
      cases htr : pyTruthy v with
      | false => simp [getManyEntry, hv, htr]
      | true =>
          simp only [getManyEntry, hv, htr, if_true, Option.some.injEq]
          constructor
          · intro h
            exact ⟨v, rfl, htr, h.symm⟩
          · rintro ⟨w, hw, -, hp⟩
            cases hw
            exact hp.symm

/-- Claim C7 (hash-client `get_many`, modelled from the spec): a key
appears in the result mapping exactly when it was requested and is
bound in the store to a truthy value — so falsy-but-present values
(notably a stored `False`) and absent keys are omitted; in particular
with `a = 1`, `b = False` stored and `c` never set,
`get_many(["a", "b", "c"])` has key set exactly `["a"]`. -/
theorem getMany_falsy_omission :
    (∀ (keys : List String) (store : List (String × PyVal)) (k : String),
        k ∈ (getMany keys store).map Prod.fst
          ↔ k ∈ keys ∧ ∃ v, alookup k store = some v ∧ pyTruthy v = true)
    ∧ (getMany ["a", "b", "c"]
        [("a", PyVal.int 1), ("b", PyVal.bool false)]).map Prod.fst
      = ["a"] := by
  constructor
  · intro keys store k
    constructor
    · intro hmem
      obtain ⟨p, hp, hpk⟩ := List.mem_map.mp hmem
      obtain ⟨a, ha, hfa⟩ := List.mem_filterMap.mp hp
      obtain ⟨v, hv, htr, hpv⟩ := getManyEntry_eq_some.mp hfa
      subst hpv
      cases hpk
      exact ⟨ha, v, hv, htr⟩
    · rintro ⟨hk, v, hv, htr⟩
      refine List.mem_map.mpr ⟨(k, v), List.mem_filterMap.mpr ⟨k, hk, ?_⟩, rfl⟩
      exact getManyEntry_eq_some.mpr ⟨v, hv, htr, rfl⟩
  · rfl

/-- Claim C8: `setup` fails with a key lookup error when
`MEMCACHED_URIS` is absent from the container configuration, while an
absent `MEMCACHED_USER` or `MEMCACHED_PASSWORD` is no error — the
corresponding field just defaults to `None`. -/
theorem setup_config_spec (cfg : Config) (opts : List (String × OptVal)) :
    (alookup "MEMCACHED_URIS" cfg = none → Memcached.setup cfg opts = none)
    ∧ (∀ st, Memcached.setup cfg opts = some st →
        (alookup "MEMCACHED_USER" cfg = none → st.user = none)
        ∧ (alookup "MEMCACHED_PASSWORD" cfg = none → st.password = none)) := by
  constructor
  · intro h
    simp only [Memcached.setup, h]
  · intro st hst
    cases hu : alookup "MEMCACHED_URIS" cfg with
    | none =>
        simp only [Memcached.setup, hu] at hst
        cases hst
    | some v =>
        cases v with
        | str s =>
            simp only [Memcached.setup, hu] at hst
            cases hst
        | strList uris =>
            simp only [Memcached.setup, hu, Option.some.injEq] at hst
            constructor
            · intro h
              rw [← hst]
              simp [configGetStr, h]
            · intro h
              rw [← hst]
              simp [configGetStr, h]

/-- Witness for C8 at concrete configurations: the empty configuration
makes `setup` fail, and a configuration holding only `MEMCACHED_URIS`
yields a state whose `user` field is `None`. -/
theorem setup_config_witness :
    Memcached.setup ([] : Config) [] = none
    ∧ (ProviderState.mk ["h"] none none [] [] 0 []).user = none :=
  ⟨(setup_config_spec [] []).1 rfl,
   ((setup_config_spec [("MEMCACHED_URIS", ConfigVal.strList ["h"])] []).2
      (ProviderState.mk ["h"] none none [] [] 0 []) rfl).1 rfl⟩

/-- Claim C9: a `get_dependency` call builds a fresh client with
`_get_client` from the current configuration, stores exactly the
returned client in the tracking table under the worker context, bumps
the allocation counter, and any client produced by a following call —
even for the same worker context — is a distinct instance. -/
theorem get_dependency_fresh_spec (st : ProviderState) (ctx : Nat)
    (st1 : ProviderState) (c1 : HashClient)
    (h : Memcached.get_dependency st ctx = some (st1, c1)) :
    alookup ctx st1.clients = some c1
    ∧ getClient st.uris st.options st.user st.password st.nextId = some c1
    ∧ c1.id = st.nextId
    ∧ st1.nextId = st.nextId + 1
    ∧ ∀ ctx2 st2 c2,
        Memcached.get_dependency st1 ctx2 = some (st2, c2) → c2 ≠ c1 := by
  cases hg : getClient st.uris st.options st.user st.password st.nextId with
  | none => rw [Memcached.get_dependency, hg] at h; cases h
  | some c =>
      rw [Memcached.get_dependency, hg] at h
      cases h
      refine ⟨alookup_assocSet_self ctx c1 st.clients, rfl,
        getClient_fresh_id hg, rfl, ?_⟩
      intro ctx2 st2 c2 h2
      cases hg2 : getClient st.uris st.options st.user st.password
          (st.nextId + 1) with
      | none => rw [Memcached.get_dependency, hg2] at h2; cases h2
      | some d =>
          rw [Memcached.get_dependency, hg2] at h2
          cases h2
          intro heq
          have hd2 : c2.id = st.nextId + 1 := getClient_fresh_id hg2
          have hc1 : c1.id = st.nextId := getClient_fresh_id hg
          rw [heq, hc1] at hd2
          omega

/-- Witness for C9 at a concrete state: after the call the tracking
table holds exactly the returned client under the worker context. -/
theorem get_dependency_fresh_witness :
    alookup 7 (ProviderState.mk ["h:1"] none none []
        [(7, HashClient.mk [("h", 1)] defaultOptions 0)] 1 []).clients
      = some (HashClient.mk [("h", 1)] defaultOptions 0) :=
  (get_dependency_fresh_spec
    (ProviderState.mk ["h:1"] none none [] [] 0 []) 7
    (ProviderState.mk ["h:1"] none none []
        [(7, HashClient.mk [("h", 1)] defaultOptions 0)] 1 [])
    (HashClient.mk [("h", 1)] defaultOptions 0) rfl).1

/-- Claim C10: `worker_teardown` touches at most the tracking-table
entry of the torn-down worker context — the provider's `uris`, `user`,
`password` and `options` fields are unchanged and every other worker
context keeps its client binding. -/
theorem worker_teardown_frame (st : ProviderState) (ctx : Nat) :
    (Memcached.worker_teardown st ctx).uris = st.uris
    ∧ (Memcached.worker_teardown st ctx).user = st.user
    ∧ (Memcached.worker_teardown st ctx).password = st.password
    ∧ (Memcached.worker_teardown st ctx).options = st.options
    ∧ ∀ ctx2, ctx2 ≠ ctx →
        alookup ctx2 (Memcached.worker_teardown st ctx).clients
          = alookup ctx2 st.clients := by
  cases hc : alookup ctx st.clients with
  | none =>
      have h1 : Memcached.worker_teardown st ctx = st := by
        simp only [Memcached.worker_teardown, hc]
      rw [h1]
      exact ⟨rfl, rfl, rfl, rfl, fun _ _ => rfl⟩
  | some c =>
      have h1 : Memcached.worker_teardown st ctx
          = { st with clients := assocErase ctx st.clients,
                      disconnected := st.disconnected ++ [c.id] } := by
        simp only [Memcached.worker_teardown, hc]
      rw [h1]
      exact ⟨rfl, rfl, rfl, rfl,
        fun ctx2 h2 => alookup_assocErase_ne h2 st.clients⟩

/-- Witness for C10 at a concrete state: tearing down worker context 3
leaves the binding of worker context 4 in place. -/
theorem worker_teardown_frame_witness :
    alookup 4 (Memcached.worker_teardown (ProviderState.mk [] none none []
        [(3, HashClient.mk [] [] 5), (4, HashClient.mk [] [] 6)] 0 []) 3).clients
      = alookup 4 (ProviderState.mk [] none none []
        [(3, HashClient.mk [] [] 5), (4, HashClient.mk [] [] 6)] 0 []).clients :=
  (worker_teardown_frame (ProviderState.mk [] none none []
      [(3, HashClient.mk [] [] 5), (4, HashClient.mk [] [] 6)] 0 []) 3).2.2.2.2
    4 (by decide)

end NamekoPymemcache
